import Mathlib

/-!
Verification of the maemio MVCC storage engine core.

This file shallowly embeds the core data structures and operations of the
engine (version chains, record heads, clocks, transactions, the retry loop,
the garbage collector, and the contention manager) as pure Lean functions,
and proves or refutes the specified properties about them.

Conventions used throughout:
* Rust `u64` values are modelled as `Nat`; where the code's wrap-around
  arithmetic matters (the clock), reductions `% 2^64` are explicit.
* `Option<Box<Version>>` chains are modelled by the inductive `Chain`; a
  standalone Rust `Version` value (which owns its `next` chain) is the
  structure `Version` with a `next : Chain` field.
* Stateful code is modelled by explicit state passing; fallible code
  returns `Except MaemioError`.
-/

/-- Version status constants from `src/data/mod.rs`. -/
def VERSION_STATUS_UNUSED : Nat := 0

/-- Status of a version created by a writer and not yet committed. -/
def VERSION_STATUS_PENDING : Nat := 1

/-- Status of a committed version. -/
def VERSION_STATUS_COMMITTED : Nat := 2

/-- Status of an aborted version. -/
def VERSION_STATUS_ABORTED : Nat := 3

/-- Status of a deleted version. -/
def VERSION_STATUS_DELETED : Nat := 4

/-- The inline fast-path size threshold from `src/data/record.rs`. -/
def MAX_INLINE_SIZE : Nat := 216

/-- A chain of versions: models Rust's `Option<Box<Version>>` where each
`Version` holds `wts`, `rts`, `status`, `data` and an owning `next` link.
`Chain.nil` is `None`. -/
inductive Chain : Type where
  | nil : Chain
  | cons (wts : Nat) (rts : Nat) (status : Nat) (data : List Nat) (next : Chain) : Chain
deriving DecidableEq, Repr

/-- A Rust `Version` value: the node fields together with the owned `next`
chain (`src/data/version.rs`). -/
structure Version : Type where
  wts : Nat
  rts : Nat
  status : Nat
  data : List Nat
  next : Chain
deriving DecidableEq, Repr

/-- `Version::new(wts, data)`: pending status, zero rts, no next link. -/
def Version.new (wts : Nat) (data : List Nat) : Version :=
  { wts := wts, rts := 0, status := VERSION_STATUS_PENDING, data := data, next := Chain.nil }

/-- `Version::is_visible_to(ts)`: `wts <= ts && status == COMMITTED`. -/
def Version.is_visible_to (v : Version) (ts : Nat) : Bool :=
  decide (v.wts ≤ ts) && decide (v.status = VERSION_STATUS_COMMITTED)

/-- `Version::commit()`: status becomes COMMITTED. -/
def Version.commit (v : Version) : Version :=
  { v with status := VERSION_STATUS_COMMITTED }

/-- The versions stored on a chain, newest first; each carries its own
tail chain as its `next`, matching the Rust ownership layout. -/
def Chain.versions : Chain → List Version
  | Chain.nil => []
  | Chain.cons w r s d n => { wts := w, rts := r, status := s, data := d, next := n } :: n.versions

/-- The write timestamps of the versions on a chain, newest first. -/
def Chain.wtsList : Chain → List Nat
  | Chain.nil => []
  | Chain.cons w _ _ _ n => w :: n.wtsList

/-- Push a version onto the head of a chain, overwriting its `next`
pointer with the previous chain — this is what
`new_version.next = list.take(); *list = Some(new_version)` does. -/
def Chain.push (c : Chain) (v : Version) : Chain :=
  Chain.cons v.wts v.rts v.status v.data c

/-- A record head (`src/data/record.rs`): the overflow `version_list`
chain, the optional inline version (which, as a full `Version` value, owns
its own possibly-dangling `next` chain), the GC watermark `min_wts`, and
the creation timestamp. The `gc_lock` mutex has no content in this
sequential model. -/
structure RecordHead : Type where
  version_list : Chain
  inline_version : Option Version
  min_wts : Nat
  creation_timestamp : Nat
deriving DecidableEq, Repr

/-- `RecordHead::new(creation_ts)`: no versions installed. -/
def RecordHead.new (creation_ts : Nat) : RecordHead :=
  { version_list := Chain.nil, inline_version := none,
    min_wts := creation_ts, creation_timestamp := creation_ts }

/-- `RecordHead::install_version`. Small payloads go inline when the slot
is free; when the slot is occupied by an older-or-equal version, the old
inline version is displaced to the head of `version_list` (its own `next`
is overwritten by the current list); otherwise the version is pushed onto
`version_list` (its `next` likewise overwritten). -/
def RecordHead.install_version (r : RecordHead) (version : Version) : RecordHead :=
  if version.data.length ≤ MAX_INLINE_SIZE then
    match r.inline_version with
    | none => { r with inline_version := some version }
    | some inl =>
      if inl.wts ≤ version.wts then
        { r with
            version_list := r.version_list.push inl,
            inline_version := some version }
      else
        { r with version_list := r.version_list.push version }
  else
    { r with version_list := r.version_list.push version }

/-- `RecordHead::get_current_version()`: a clone of the version list. -/
def RecordHead.get_current_version (r : RecordHead) : Chain :=
  r.version_list

/-- Walk a chain newest→oldest and return the first visible version. -/
def Chain.findVisible : Chain → Nat → Option Version
  | Chain.nil, _ => none
  | Chain.cons w r s d n, ts =>
    if Version.is_visible_to { wts := w, rts := r, status := s, data := d, next := n } ts then
      some { wts := w, rts := r, status := s, data := d, next := n }
    else
      n.findVisible ts

/-- `RecordHead::find_visible_version(ts)`: nothing below the creation
timestamp; otherwise the inline slot is consulted first (its hanging
`next` chain is never walked), then the version list newest→oldest. -/
def RecordHead.find_visible_version (r : RecordHead) (ts : Nat) : Option Version :=
  if ts < r.creation_timestamp then none
  else
    match r.inline_version with
    | some v => if v.is_visible_to ts then some v else r.version_list.findVisible ts
    | none => r.version_list.findVisible ts

/-- `RecordHead::update_min_wts(ts)`. -/
def RecordHead.update_min_wts (r : RecordHead) (ts : Nat) : RecordHead :=
  { r with min_wts := ts }

/-- All versions reachable in a record: the inline version together with
its hanging `next` chain, followed by the version list. -/
def RecordHead.reachableVersions (r : RecordHead) : List Version :=
  (match r.inline_version with
   | none => []
   | some v => v :: v.next.versions) ++ r.version_list.versions

/-- The write timestamps of all reachable versions of a record. -/
def RecordHead.reachableWts (r : RecordHead) : List Nat :=
  (r.reachableVersions).map Version.wts

/-- Chain well-ordering: every version's `next` links only to strictly
smaller write timestamps (newest-first ordering). -/
def Chain.sortedDesc : Chain → Prop
  | Chain.nil => True
  | Chain.cons w _ _ _ n => (∀ u ∈ n.wtsList, u < w) ∧ n.sortedDesc

/-- Executable check for `Chain.sortedDesc`. -/
def Chain.sortedDescB : Chain → Bool
  | Chain.nil => true
  | Chain.cons w _ _ _ n => (n.wtsList.all fun u => decide (u < w)) && n.sortedDescB

theorem Chain.sortedDescB_iff (c : Chain) : c.sortedDescB = true ↔ c.sortedDesc := by
  induction c with
  | nil => simp [Chain.sortedDescB, Chain.sortedDesc]
  | cons w r s d n ih =>
    simp [Chain.sortedDescB, Chain.sortedDesc, List.all_eq_true, ih]

instance (c : Chain) : Decidable c.sortedDesc :=
  decidable_of_iff _ (Chain.sortedDescB_iff c)

/-- The structural invariants claimed of `RecordHead` (spec §3): if the
inline slot is occupied its `wts` is ≥ every `wts` on the version list,
and the version list is newest-first with strictly decreasing `wts`. -/
def RecordHead.structInv (r : RecordHead) : Prop :=
  (∀ inl, r.inline_version = some inl → ∀ u ∈ r.version_list.wtsList, u ≤ inl.wts) ∧
  r.version_list.sortedDesc

/-- Executable check for `RecordHead.structInv`. -/
def RecordHead.structInvB (r : RecordHead) : Bool :=
  (match r.inline_version with
   | none => true
   | some inl => r.version_list.wtsList.all fun u => decide (u ≤ inl.wts)) &&
  r.version_list.sortedDescB

theorem RecordHead.structInvB_iff (r : RecordHead) : r.structInvB = true ↔ r.structInv := by
  unfold RecordHead.structInvB RecordHead.structInv
  cases hinl : r.inline_version with
  | none => simp [Chain.sortedDescB_iff]
  | some inl => simp [Chain.sortedDescB_iff, List.all_eq_true]

instance (r : RecordHead) : Decidable r.structInv :=
  decidable_of_iff _ (RecordHead.structInvB_iff r)

-- Basic helper lemmas about visibility search.

/-- Whatever `findVisible` returns is visible: committed with `wts ≤ ts`. -/
theorem Chain.findVisible_visible {c : Chain} {ts : Nat} {v : Version}
    (h : c.findVisible ts = some v) :
    v.wts ≤ ts ∧ v.status = VERSION_STATUS_COMMITTED := by
  induction c with
  | nil => simp [Chain.findVisible] at h
  | cons w r s d n ih =>
    unfold Chain.findVisible at h
    by_cases hv : Version.is_visible_to { wts := w, rts := r, status := s, data := d, next := n } ts
    · simp only [hv, if_true, Option.some.injEq] at h
      subst h
      simpa [Version.is_visible_to] using hv
    · simp only [hv, if_false] at h
      exact ih h

/-- Whatever `find_visible_version` returns is visible: committed with
`wts ≤ ts`. -/
theorem RecordHead.find_visible_version_visible {r : RecordHead} {ts : Nat} {v : Version}
    (h : r.find_visible_version ts = some v) :
    v.wts ≤ ts ∧ v.status = VERSION_STATUS_COMMITTED := by
  unfold RecordHead.find_visible_version at h
  by_cases hts : ts < r.creation_timestamp
  · simp [hts] at h
  · simp only [hts, if_false] at h
    cases hinl : r.inline_version with
    | none =>
      rw [hinl] at h
      exact Chain.findVisible_visible h
    | some inl =>
      rw [hinl] at h
      by_cases hv : inl.is_visible_to ts
      · simp only [hv, if_true, Option.some.injEq] at h
        subst h
        simpa [Version.is_visible_to] using hv
      · simp only [hv, if_false] at h
        exact Chain.findVisible_visible h

/-- A version's `wts` appears in the chain's `wtsList`. -/
theorem Chain.wts_mem_of_mem_versions {c : Chain} {u : Version}
    (h : u ∈ c.versions) : u.wts ∈ c.wtsList := by
  induction c with
  | nil => simp [Chain.versions] at h
  | cons w r s d n ih =>
    simp only [Chain.versions, List.mem_cons] at h
    rcases h with h | h
    · subst h
      simp [Chain.wtsList]
    · simp [Chain.wtsList, ih h]

/-- On a strictly descending chain, `findVisible` returns the committed
version with the largest `wts` not exceeding `ts`. -/
theorem Chain.findVisible_maximal {c : Chain} {ts : Nat} {v : Version}
    (hs : c.sortedDesc) (h : c.findVisible ts = some v) :
    ∀ u ∈ c.versions, u.status = VERSION_STATUS_COMMITTED → u.wts ≤ ts → u.wts ≤ v.wts := by
  induction c with
  | nil => simp [Chain.versions]
  | cons w r s d n ih =>
    intro u hu hc hle
    unfold Chain.findVisible at h
    simp only [Chain.versions, List.mem_cons] at hu
    by_cases hv : Version.is_visible_to { wts := w, rts := r, status := s, data := d, next := n } ts
    · simp only [hv, if_true, Option.some.injEq] at h
      subst h
      rcases hu with hu | hu
      · subst hu
        exact le_rfl
      · exact le_of_lt (hs.1 u.wts (Chain.wts_mem_of_mem_versions hu))
    · simp only [hv, if_false] at h
      rcases hu with hu | hu
      · subst hu
        have hc' : s = VERSION_STATUS_COMMITTED := by simpa using hc
        have hle' : w ≤ ts := by simpa using hle
        simp [Version.is_visible_to, hc', hle'] at hv
      · exact ih hs.2 h u hu hc hle

/-- Well-formedness of a record head: the structural invariants together
with the absence of a dangling chain behind the inline slot (true of any
record populated only by transaction commits, whose installed versions
carry `next == None`). -/
def RecordHead.wellFormed (r : RecordHead) : Prop :=
  r.structInv ∧ ∀ inl, r.inline_version = some inl → inl.next = Chain.nil

/-- Executable check for `RecordHead.wellFormed`. -/
def RecordHead.wellFormedB (r : RecordHead) : Bool :=
  r.structInvB &&
  (match r.inline_version with
   | none => true
   | some inl => inl.next == Chain.nil)

theorem RecordHead.wellFormedB_iff (r : RecordHead) : r.wellFormedB = true ↔ r.wellFormed := by
  unfold RecordHead.wellFormedB RecordHead.wellFormed
  cases hinl : r.inline_version with
  | none => simp [RecordHead.structInvB_iff]
  | some inl => simp [RecordHead.structInvB_iff]

instance (r : RecordHead) : Decidable r.wellFormed :=
  decidable_of_iff _ (RecordHead.wellFormedB_iff r)

/-- The record used to refute claim C2 as stated: a large committed
version (217 bytes, `wts = 100`) is installed first and lands on the
chain; a small committed version (`wts = 50`) is installed second and
lands in the empty inline slot. -/
def c2Record : RecordHead :=
  ((RecordHead.new 0).install_version
      { wts := 100, rts := 0, status := VERSION_STATUS_COMMITTED,
        data := List.replicate 217 0, next := Chain.nil }).install_version
    { wts := 50, rts := 0, status := VERSION_STATUS_COMMITTED,
      data := [2], next := Chain.nil }

set_option maxRecDepth 4096 in
/-- C2 (counterexample): on `c2Record`, built by two `install_version`
calls, `find_visible_version 100` returns the inline version with
`wts = 50`, even though a committed version with `wts = 100 ∈ (50, 100]`
is reachable on the chain — the claim's maximality clause fails. -/
theorem claim_C2_counterexample :
    (c2Record.find_visible_version 100).map Version.wts = some 50 ∧
    100 ∈ c2Record.reachableWts ∧
    (∀ u ∈ c2Record.reachableVersions, u.wts = 100 → u.status = VERSION_STATUS_COMMITTED) ∧
    50 < 100 ∧ 100 ≤ 100 := by
  decide

/-- C2 (amended): any version returned by `find_visible_version T` is
committed with `wts ≤ T`; and on a well-formed record (inline slot
dominating a strictly descending chain, no dangling inline chain) it is
moreover the newest such version: no reachable committed version has
`wts ∈ (V.wts, T]`. -/
theorem claim_C2_amended (r : RecordHead) (T : Nat) (v : Version)
    (hwf : r.wellFormed) (h : r.find_visible_version T = some v) :
    v.wts ≤ T ∧ v.status = VERSION_STATUS_COMMITTED ∧
    ∀ u ∈ r.reachableVersions, u.status = VERSION_STATUS_COMMITTED → u.wts ≤ T → u.wts ≤ v.wts := by
  obtain ⟨hle, hcomm⟩ := RecordHead.find_visible_version_visible h
  refine ⟨hle, hcomm, ?_⟩
  intro u hu huc hut
  unfold RecordHead.find_visible_version at h
  by_cases hts : T < r.creation_timestamp
  · simp [hts] at h
  · simp only [hts, if_false] at h
    unfold RecordHead.reachableVersions at hu
    cases hinl : r.inline_version with
    | none =>
      rw [hinl] at h hu
      replace hu : u ∈ ([] : List Version) ++ r.version_list.versions := hu
      simp only [List.nil_append] at hu
      exact Chain.findVisible_maximal hwf.1.2 h u hu huc hut
    | some inl =>
      rw [hinl] at h hu
      replace hu : u ∈ (inl :: inl.next.versions) ++ r.version_list.versions := hu
      replace h :
          (if inl.is_visible_to T then some inl else r.version_list.findVisible T) = some v := h
      have hnil : inl.next = Chain.nil := hwf.2 inl hinl
      rw [hnil] at hu
      simp only [Chain.versions, List.cons_append, List.nil_append, List.mem_cons] at hu
      by_cases hv : inl.is_visible_to T
      · simp only [hv, if_true, Option.some.injEq] at h
        subst h
        rcases hu with hu | hu
        · subst hu
          exact le_rfl
        · exact hwf.1.1 inl hinl u.wts (Chain.wts_mem_of_mem_versions hu)
      · simp only [hv, if_false] at h
        rcases hu with hu | hu
        · subst hu
          simp [Version.is_visible_to, hut, huc] at hv
        · exact Chain.findVisible_maximal hwf.1.2 h u hu huc hut

/-- A small well-formed record for the C2 witness. -/
def c2WitnessRecord : RecordHead :=
  (RecordHead.new 0).install_version
    { wts := 5, rts := 0, status := VERSION_STATUS_COMMITTED, data := [1], next := Chain.nil }

/-- Witness instantiating `claim_C2_amended` on a concrete record. -/
theorem claim_C2_witness :
    (5 : Nat) ≤ 10 ∧ 2 = VERSION_STATUS_COMMITTED ∧
    ∀ u ∈ c2WitnessRecord.reachableVersions,
      u.status = VERSION_STATUS_COMMITTED → u.wts ≤ 10 → u.wts ≤ 5 := by
  have h := claim_C2_amended c2WitnessRecord 10
      { wts := 5, rts := 0, status := VERSION_STATUS_COMMITTED, data := [1], next := Chain.nil }
      (by decide) (by decide)
  exact h

/-- Strengthened structural invariant: an occupied inline slot strictly
dominates every `wts` on the version list, and the list is strictly
descending. (The non-strict form claimed by the spec is not preserved by
`install_version`: displacing an inline version whose `wts` ties the list
head would break the strict chain ordering.) -/
def RecordHead.strictInv (r : RecordHead) : Prop :=
  (∀ inl, r.inline_version = some inl → ∀ u ∈ r.version_list.wtsList, u < inl.wts) ∧
  r.version_list.sortedDesc

/-- Executable check for `RecordHead.strictInv`. -/
def RecordHead.strictInvB (r : RecordHead) : Bool :=
  (match r.inline_version with
   | none => true
   | some inl => r.version_list.wtsList.all fun u => decide (u < inl.wts)) &&
  r.version_list.sortedDescB

theorem RecordHead.strictInvB_iff (r : RecordHead) : r.strictInvB = true ↔ r.strictInv := by
  unfold RecordHead.strictInvB RecordHead.strictInv
  cases hinl : r.inline_version with
  | none => simp [Chain.sortedDescB_iff]
  | some inl => simp [Chain.sortedDescB_iff, List.all_eq_true]

instance (r : RecordHead) : Decidable r.strictInv :=
  decidable_of_iff _ (RecordHead.strictInvB_iff r)

/-- The `wts` values install decisions compare against: the inline slot's
timestamp (when occupied) followed by the version list's timestamps. -/
def RecordHead.topWts (r : RecordHead) : List Nat :=
  (match r.inline_version with
   | none => []
   | some inl => [inl.wts]) ++ r.version_list.wtsList

/-- The record used to refute claim C4: a single big committed version
(217 bytes, `wts = 100`) on the chain, inline slot empty; the invariants
hold. -/
def c4Before : RecordHead :=
  (RecordHead.new 0).install_version
    { wts := 100, rts := 0, status := VERSION_STATUS_COMMITTED,
      data := List.replicate 217 0, next := Chain.nil }

/-- `c4Before` after installing a small, older version (`wts = 50`). -/
def c4After : RecordHead :=
  c4Before.install_version
    { wts := 50, rts := 0, status := VERSION_STATUS_COMMITTED,
      data := [2], next := Chain.nil }

set_option maxRecDepth 4096 in
/-- C4 (counterexample): `c4Before` satisfies the claimed structural
invariants, but after installing a small version with `wts = 50` the
inline slot holds `wts = 50` while `wts = 100` sits on the version list —
`install_version` does not preserve the invariants. -/
theorem claim_C4_counterexample :
    c4Before.structInv ∧ ¬ c4After.structInv := by
  decide

/-- C4 (amended): `install_version` preserves the (strengthened)
structural invariants provided the installed version's payload fits the
inline slot (≤ 216 bytes) and its `wts` strictly exceeds every timestamp
the record currently holds in its inline slot and version list. Without
these provisos the invariants are not preserved (see the counterexample). -/
theorem claim_C4_amended (r : RecordHead) (v : Version)
    (hinv : r.strictInv)
    (hsmall : v.data.length ≤ MAX_INLINE_SIZE)
    (hnew : ∀ u ∈ r.topWts, u < v.wts) :
    (r.install_version v).strictInv := by
  unfold RecordHead.install_version
  simp only [hsmall, if_true]
  cases hinl : r.inline_version with
  | none =>
    refine ⟨?_, hinv.2⟩
    intro inl hsome u hu
    replace hsome : some v = some inl := hsome
    rw [Option.some.injEq] at hsome
    subst hsome
    have : u ∈ r.topWts := by
      unfold RecordHead.topWts
      rw [hinl]
      simpa using hu
    exact hnew u this
  | some inl =>
    have hlt : inl.wts < v.wts := by
      apply hnew
      unfold RecordHead.topWts
      rw [hinl]
      simp
    have hle : inl.wts ≤ v.wts := le_of_lt hlt
    simp only [hle, if_true]
    constructor
    · intro inl2 hsome u hu
      replace hsome : some v = some inl2 := hsome
      rw [Option.some.injEq] at hsome
      subst hsome
      replace hu : u ∈ (r.version_list.push inl).wtsList := hu
      unfold Chain.push Chain.wtsList at hu
      rcases List.mem_cons.mp hu with hu | hu
      · rw [hu]
        exact hlt
      · apply hnew
        unfold RecordHead.topWts
        rw [hinl]
        simp [hu]
    · replace hdom := hinv.1 inl hinl
      refine ⟨?_, hinv.2⟩
      intro u hu
      exact hdom u hu

/-- Record for the C4 witness: inline `wts = 5`. -/
def c4WitnessRecord : RecordHead :=
  (RecordHead.new 0).install_version
    { wts := 5, rts := 0, status := VERSION_STATUS_COMMITTED, data := [1], next := Chain.nil }

/-- Witness instantiating `claim_C4_amended`: installing `wts = 10`
(small payload) on `c4WitnessRecord` preserves the invariants. -/
theorem claim_C4_witness :
    (c4WitnessRecord.install_version
      { wts := 10, rts := 0, status := VERSION_STATUS_COMMITTED,
        data := [3], next := Chain.nil }).strictInv := by
  exact claim_C4_amended c4WitnessRecord
    { wts := 10, rts := 0, status := VERSION_STATUS_COMMITTED, data := [3], next := Chain.nil }
    (by decide) (by decide) (by decide)

/-- The error enumeration from `src/error.rs`. -/
inductive MaemioError : Type where
  | ValidationFailed
  | NoVisibleVersion
  | Conflict
  | RecordNotFound (id : Nat)
  | TableNotFound (name : String)
  | InvalidTimestamp
  | System (msg : String)
  | VersionInstallationFailed
deriving DecidableEq, Repr

/-- Bitwise-or of numbers with disjoint bit ranges is addition: used to
reason about `(new_clock << 8) | thread_id`. -/
theorem lor_disjoint_add : ∀ (n a b : Nat), a % 2 ^ n = 0 → b < 2 ^ n → a ||| b = a + b := by
  intro n
  induction n with
  | zero =>
    intro a b _ hb
    have : b = 0 := by omega
    subst this
    simp
  | succ n ih =>
    intro a b ha hb
    by_cases ha0 : a = 0
    · subst ha0; simp
    by_cases hb0 : b = 0
    · subst hb0; simp
    have hdecomp : a ||| b = Nat.bit (a.bodd || b.bodd) (a / 2 ||| b / 2) := by
      have := Nat.bitwise_of_ne_zero (f := or) ha0 hb0
      simpa [Nat.div2_val, HOr.hOr, OrOp.or, Nat.lor] using this
    have hpow : 2 ^ (n + 1) = 2 * 2 ^ n := by ring
    have hdvd : 2 ^ (n + 1) ∣ a := Nat.dvd_of_mod_eq_zero ha
    obtain ⟨k, hk⟩ := hdvd
    have hk2 : a = 2 * (2 ^ n * k) := by rw [hk, hpow]; ring
    have haeven : a % 2 = 0 := by omega
    have ha2 : (a / 2) % 2 ^ n = 0 := by
      have hdiv : a / 2 = 2 ^ n * k := by omega
      rw [hdiv]
      exact Nat.mul_mod_right _ _
    have hb2 : b / 2 < 2 ^ n := by omega
    have hbodd_a : a.bodd = false := by
      have hm := Nat.mod_two_of_bodd a
      cases h : a.bodd
      · rfl
      · rw [h] at hm; simp at hm; omega
    have hbmod : b % 2 = (b.bodd).toNat := Nat.mod_two_of_bodd b
    rw [hdecomp, hbodd_a, Bool.false_or, ih _ _ ha2 hb2, Nat.bit_val]
    omega

/-- The modulus of Rust's wrapping `u64` arithmetic. -/
def U64_MOD : Nat := 2 ^ 64

/-- Per-thread clock state (`src/clock/mod.rs`); every field is a `u64`
atomic in the source, modelled as `Nat` held below `2^64` by explicit
reductions where the arithmetic can wrap. -/
structure Clock : Type where
  local_clock : Nat
  clock_boost : Nat
  thread_id : Nat
  last_timestamp : Nat
  read_timestamp : Nat
deriving DecidableEq, Repr

/-- `Clock::new(thread_id)`: rejects thread ids ≥ 255. -/
def Clock.new (thread_id : Nat) : Except MaemioError Clock :=
  if 255 ≤ thread_id then
    Except.error (MaemioError.System "Thread ID must be less than 255")
  else
    Except.ok
      { local_clock := 0, clock_boost := 0, thread_id := thread_id,
        last_timestamp := 0, read_timestamp := 0 }

/-- `Clock::generate_write_timestamp()`. The elapsed micro-tick that the
code reads from the OS (`Instant::now().elapsed().as_micros() as u64`) is
passed in as `now`; all additions and the 8-bit shift wrap at `2^64`
exactly as the release-mode `u64` arithmetic of the source does. Returns
the updated clock together with the timestamp. -/
def Clock.generate_write_timestamp (c : Clock) (now : Nat) : Clock × Nat :=
  let local_clock := (c.local_clock + now) % U64_MOD
  let current_clock := local_clock
  let boosted_clock := (current_clock + c.clock_boost) % U64_MOD
  let last_ts := c.last_timestamp
  let new_clock := max boosted_clock ((last_ts + 1) % U64_MOD)
  let timestamp := ((new_clock <<< 8) % U64_MOD) ||| c.thread_id
  ({ c with local_clock := local_clock, last_timestamp := timestamp }, timestamp)

/-- `Clock::generate_read_timestamp(min_write_ts)`. -/
def Clock.generate_read_timestamp (c : Clock) (min_write_ts : Nat) : Clock × Nat :=
  let read_ts := min_write_ts - 1
  ({ c with read_timestamp := read_ts }, read_ts)

/-- `Clock::synchronize_with(other)`. -/
def Clock.synchronize_with (c : Clock) (other : Clock) : Clock :=
  if c.local_clock < other.local_clock then { c with local_clock := other.local_clock } else c

/-- `Clock::apply_boost(boost_amount)`. -/
def Clock.apply_boost (c : Clock) (boost_amount : Nat) : Clock :=
  { c with clock_boost := boost_amount }

/-- `Clock::reset_boost()`. -/
def Clock.reset_boost (c : Clock) : Clock :=
  { c with clock_boost := 0 }

/-- Fresh clock with thread id 0, as produced by `Clock::new(0)`. -/
def c3Clock0 : Clock :=
  { local_clock := 0, clock_boost := 0, thread_id := 0, last_timestamp := 0, read_timestamp := 0 }

/-- First call: the elapsed tick pushes the clock to `2^56 - 1`. -/
def c3Step1 : Clock × Nat := c3Clock0.generate_write_timestamp (2 ^ 56 - 1)

/-- Second successive call on the resulting clock state. -/
def c3Step2 : Clock × Nat := c3Step1.1.generate_write_timestamp 1

/-- C3 (counterexample): two successive `generate_write_timestamp` calls
on one clock return a strictly *smaller* second value once the candidate
clock crosses `2^56` and the 8-bit shift wraps at `2^64`: the first call
returns `2^64 - 256`, the second `2^64 - 65280`. -/
theorem claim_C3_counterexample :
    c3Step2.2 < c3Step1.2 ∧ c3Step1.2 = 2 ^ 64 - 256 ∧ c3Step2.2 = 2 ^ 64 - 65280 := by
  decide

/-- C3 (amended): a call of `generate_write_timestamp` returns a value
strictly greater than the stored `last_timestamp` — and stores the value
it returns, so successive calls strictly increase — provided no `u64`
overflow occurs: the boosted clock and the incremented `last_timestamp`
stay below `2^56`, so that the 8-bit shift does not truncate. Under
wrap-around the property fails (see the counterexample). -/
theorem claim_C3_amended (c : Clock) (now : Nat)
    (htid : c.thread_id < 255)
    (hno : c.local_clock + now + c.clock_boost < 2 ^ 56)
    (hlast : c.last_timestamp + 1 < 2 ^ 56) :
    c.last_timestamp < (c.generate_write_timestamp now).2 ∧
    (c.generate_write_timestamp now).1.last_timestamp = (c.generate_write_timestamp now).2 := by
  refine ⟨?_, rfl⟩
  unfold Clock.generate_write_timestamp
  simp only []
  have hU : U64_MOD = 2 ^ 64 := rfl
  have h64 : (2:Nat) ^ 56 < 2 ^ 64 := by norm_num
  have h1 : (c.local_clock + now) % U64_MOD = c.local_clock + now := by
    apply Nat.mod_eq_of_lt
    rw [hU]
    omega
  rw [h1]
  have h2 : (c.local_clock + now + c.clock_boost) % U64_MOD =
      c.local_clock + now + c.clock_boost := by
    apply Nat.mod_eq_of_lt
    rw [hU]
    omega
  have h3 : (c.last_timestamp + 1) % U64_MOD = c.last_timestamp + 1 := by
    apply Nat.mod_eq_of_lt
    rw [hU]
    omega
  rw [h2, h3]
  set nc := max (c.local_clock + now + c.clock_boost) (c.last_timestamp + 1) with hnc
  have hnclt : nc < 2 ^ 56 := max_lt hno hlast
  have hshift : nc <<< 8 = nc * 256 := by
    rw [Nat.shiftLeft_eq]
  have hprod : (2:Nat) ^ 56 * 256 = 2 ^ 64 := by norm_num
  have hmod : (nc <<< 8) % U64_MOD = nc * 256 := by
    rw [hshift, hU]
    apply Nat.mod_eq_of_lt
    rw [← hprod]
    exact (Nat.mul_lt_mul_right (by norm_num : 0 < 256)).mpr hnclt
  rw [hmod]
  have hlor : nc * 256 ||| c.thread_id = nc * 256 + c.thread_id :=
    lor_disjoint_add 8 (nc * 256) c.thread_id (Nat.mul_mod_left nc 256) (by omega)
  rw [hlor]
  have hge : c.last_timestamp + 1 ≤ nc := le_max_right _ _
  omega

/-- Clock for the C3 witness: thread id 3, fresh state. -/
def c3WitnessClock : Clock :=
  { local_clock := 0, clock_boost := 0, thread_id := 3, last_timestamp := 0, read_timestamp := 0 }

/-- Witness instantiating `claim_C3_amended` on a fresh clock with a
small elapsed tick. -/
theorem claim_C3_witness :
    c3WitnessClock.last_timestamp < (c3WitnessClock.generate_write_timestamp 5).2 ∧
    (c3WitnessClock.generate_write_timestamp 5).1.last_timestamp =
      (c3WitnessClock.generate_write_timestamp 5).2 := by
  exact claim_C3_amended c3WitnessClock 5 (by decide) (by decide) (by decide)

/-- The keep-phase of `GarbageCollector::collect_record_versions`: walk
the cloned chain and collect `Version::new(wts, data.clone())` for every
version with `wts >= min_rts` — note the rebuilt copies are PENDING with
`rts = 0`. -/
def Chain.keptVersions : Chain → Nat → List Version
  | Chain.nil, _ => []
  | Chain.cons w _ _ d n, min_rts =>
    if min_rts ≤ w then Version.new w d :: n.keptVersions min_rts
    else n.keptVersions min_rts

/-- The rebuild-phase: iterate the kept versions in reverse, each time
setting `next` to the chain built so far, exactly as the source's
`for version in versions.into_iter().rev()` loop does. -/
def rebuildChain (versions : List Version) : Chain :=
  versions.reverse.foldl (fun new_chain v => new_chain.push v) Chain.nil

/-- `GarbageCollector::collect_record_versions(record, min_rts)`:
update the record's `min_wts` watermark, rebuild the kept chain from the
version list, and — if the rebuilt chain is nonempty — hand its head
(with the rest of the rebuilt chain as its `next`) to `install_version`.
The inline slot is never examined and the old `version_list` is never
cleared. -/
def collect_record_versions (record : RecordHead) (min_rts : Nat) : RecordHead :=
  let record := record.update_min_wts min_rts
  let versions := record.get_current_version.keptVersions min_rts
  let new_chain := rebuildChain versions
  match new_chain with
  | Chain.nil => record
  | Chain.cons w r s d n =>
    record.install_version { wts := w, rts := r, status := s, data := d, next := n }

/-- A record whose version list holds committed versions with `wts = 20`
and `wts = 5`: input on which a GC pass at watermark 10 fails to reclaim. -/
def c1Record : RecordHead :=
  { version_list :=
      Chain.cons 20 0 VERSION_STATUS_COMMITTED [2]
        (Chain.cons 5 0 VERSION_STATUS_COMMITTED [1] Chain.nil),
    inline_version := none, min_wts := 0, creation_timestamp := 0 }

/-- C1 (code bug, evaluated at the failing input): after
`collect_record_versions c1Record 10` (watermark `W = 10`) the committed
version with `wts = 5 < W` is still reachable — the pass removes nothing,
because `install_version` parks the rebuilt head in the inline slot (or
prepends it to the old list) instead of replacing the list, and the
rebuilt copy is PENDING rather than COMMITTED. Readers are unaffected
(`find_visible_version 25` still returns `wts = 20` from the intact old
chain), so the claim's first conjunct is false on the code while its
second holds vacuously. -/
theorem claim_C1_code_bug :
    5 ∈ (collect_record_versions c1Record 10).reachableWts ∧
    5 < 10 ∧
    ((collect_record_versions c1Record 10).find_visible_version 25).map Version.wts =
      some 20 ∧
    ((collect_record_versions c1Record 10).inline_version).map Version.status =
      some VERSION_STATUS_PENDING ∧
    (collect_record_versions c1Record 10).version_list = c1Record.version_list := by
  decide

/-- What one attempt of `TransactionManager::execute_with_gc` can observe:
the user closure fails with `e`; the closure succeeds (with `value`) but
`commit()` fails with `e`; or both succeed. Successive attempts are
indexed by the attempt counter, abstracting the `FnMut` closure's and the
store's evolving state. -/
inductive AttemptOutcome (T : Type) : Type where
  | opErr (e : MaemioError)
  | commitErr (value : T) (e : MaemioError)
  | success (value : T)

/-- An attempt outcome is transient iff it is a `Conflict`, whether from
the closure or from `commit()`. -/
def isTransient {T : Type} (o : AttemptOutcome T) : Prop :=
  o = AttemptOutcome.opErr MaemioError.Conflict ∨
  ∃ v, o = AttemptOutcome.commitErr v MaemioError.Conflict

/-- The retry loop of `TransactionManager::execute_with_gc` (from
`src/transaction/manager.rs`), entered with the given attempt counter:
the counter is incremented, the `MAX_ATTEMPTS = 10` bound checked, and
the attempt's outcome dispatched — `Conflict` (from either place) backs
off and re-enters, any other error returns immediately, success returns
the value. -/
def executeFrom {T : Type} (outcome : Nat → AttemptOutcome T) (attempts : Nat) :
    Except MaemioError T :=
  if h : 10 < attempts + 1 then
    Except.error (MaemioError.System "Max retry attempts exceeded")
  else
    match outcome (attempts + 1) with
    | AttemptOutcome.opErr e =>
      if e = MaemioError.Conflict then executeFrom outcome (attempts + 1) else Except.error e
    | AttemptOutcome.commitErr _ e =>
      if e = MaemioError.Conflict then executeFrom outcome (attempts + 1) else Except.error e
    | AttemptOutcome.success v => Except.ok v
termination_by 11 - attempts
decreasing_by all_goals omega

/-- `TransactionManager::execute_with_gc`: the loop starting at zero
attempts. -/
def execute_with_gc {T : Type} (outcome : Nat → AttemptOutcome T) : Except MaemioError T :=
  executeFrom outcome 0

/-- Past the tenth attempt the loop returns the terminal system error. -/
theorem executeFrom_exceed {T : Type} (outcome : Nat → AttemptOutcome T) (a : Nat)
    (h : 10 < a + 1) :
    executeFrom outcome a = Except.error (MaemioError.System "Max retry attempts exceeded") := by
  rw [executeFrom]
  simp [h]

/-- A transient attempt within bounds re-enters the loop. -/
theorem executeFrom_conflict_step {T : Type} (outcome : Nat → AttemptOutcome T) (a : Nat)
    (hle : a + 1 ≤ 10) (hc : isTransient (outcome (a + 1))) :
    executeFrom outcome a = executeFrom outcome (a + 1) := by
  conv_lhs => rw [executeFrom]
  have h10 : ¬ 10 < a + 1 := by omega
  rcases hc with hc | ⟨v, hc⟩ <;> rw [hc] <;> simp [h10]

/-- Consecutive transient attempts are skipped by the loop. -/
theorem executeFrom_skip {T : Type} (outcome : Nat → AttemptOutcome T) :
    ∀ (j a : Nat), (∀ n, a < n → n ≤ a + j → isTransient (outcome n)) → a + j ≤ 10 →
      executeFrom outcome a = executeFrom outcome (a + j) := by
  intro j
  induction j with
  | zero => intro a _ _; rfl
  | succ j ih =>
    intro a hall hle
    have h1 : executeFrom outcome a = executeFrom outcome (a + 1) := by
      apply executeFrom_conflict_step outcome a (by omega)
      exact hall (a + 1) (by omega) (by omega)
    rw [h1]
    have h2 := ih (a + 1) (fun n hn1 hn2 => hall n (by omega) (by omega)) (by omega)
    rw [h2]
    congr 1
    omega

/-- C5 (confirmed): in `execute_with_gc`, `Conflict` — whether from the
user closure or from `commit()` — is the only outcome that triggers
backoff and retry. If all of attempts 1..10 are transient the loop stops
after exactly those 10 attempts with the terminal error
`System "Max retry attempts exceeded"` (outcomes beyond attempt 10 are
never consulted); and at the first non-transient attempt `k ≤ 10` any
non-`Conflict` error is returned immediately, and success returns the
closure's value. -/
theorem claim_C5 {T : Type} (outcome : Nat → AttemptOutcome T) :
    ((∀ n, 1 ≤ n → n ≤ 10 → isTransient (outcome n)) →
      execute_with_gc outcome =
        Except.error (MaemioError.System "Max retry attempts exceeded")) ∧
    (∀ k, 1 ≤ k → k ≤ 10 → (∀ n, 1 ≤ n → n < k → isTransient (outcome n)) →
      (∀ e, outcome k = AttemptOutcome.opErr e → e ≠ MaemioError.Conflict →
        execute_with_gc outcome = Except.error e) ∧
      (∀ v e, outcome k = AttemptOutcome.commitErr v e → e ≠ MaemioError.Conflict →
        execute_with_gc outcome = Except.error e) ∧
      (∀ v, outcome k = AttemptOutcome.success v →
        execute_with_gc outcome = Except.ok v)) := by
  constructor
  · intro hall
    unfold execute_with_gc
    have h := executeFrom_skip outcome 10 0 (fun n hn1 hn2 => hall n (by omega) (by omega))
      (by omega)
    rw [h]
    exact executeFrom_exceed outcome 10 (by omega)
  · intro k hk1 hk10 hpre
    have hskip := executeFrom_skip outcome (k - 1) 0
      (fun n hn1 hn2 => hpre n (by omega) (by omega)) (by omega)
    have hbase : execute_with_gc outcome = executeFrom outcome (k - 1) := by
      unfold execute_with_gc
      rw [hskip]
      congr 1
      omega
    have hk1' : k - 1 + 1 = k := by omega
    have h10 : ¬ 10 < k := by omega
    refine ⟨?_, ?_, ?_⟩
    · intro e he hne
      rw [hbase, executeFrom, hk1', he]
      simp [h10, hne]
    · intro v e he hne
      rw [hbase, executeFrom, hk1', he]
      simp [h10, hne]
    · intro v he
      rw [hbase, executeFrom, hk1', he]
      simp [h10]

/-- Outcome sequence in which every attempt conflicts. -/
def c5AllConflict : Nat → AttemptOutcome Nat :=
  fun _ => AttemptOutcome.opErr MaemioError.Conflict

/-- Outcome sequence: attempt 1 conflicts, attempt 2 succeeds with 42. -/
def c5SucceedSecond : Nat → AttemptOutcome Nat :=
  fun n => if n = 1 then AttemptOutcome.opErr MaemioError.Conflict
           else AttemptOutcome.success 42

/-- Witness instantiating `claim_C5` on both concrete outcome sequences. -/
theorem claim_C5_witness :
    execute_with_gc c5AllConflict =
      Except.error (MaemioError.System "Max retry attempts exceeded") ∧
    execute_with_gc c5SucceedSecond = Except.ok 42 := by
  constructor
  · exact (claim_C5 c5AllConflict).1 (fun n h1 h2 => Or.inl rfl)
  · refine ((claim_C5 c5SucceedSecond).2 2 (by omega) (by omega) ?_).2.2 42 rfl
    intro n h1 h2
    have hn : n = 1 := by omega
    subst hn
    exact Or.inl rfl

/-- The process-wide record store: `HashMap<u64, Arc<RecordHead>>` behind
the manager's `RwLock`, modelled as a partial map. -/
def Store : Type := Nat → Option RecordHead

/-- Store after `records.insert(record_id, r)`. -/
def Store.update (store : Store) (record_id : Nat) (r : RecordHead) : Store :=
  fun id => if id = record_id then some r else store id

/-- `HashMap::get` on the transaction-side maps (read/write/local sets),
modelled as association lists. -/
def lookupKV (l : List (Nat × Version)) (k : Nat) : Option Version :=
  (l.find? fun p => p.1 == k).map fun p => p.2

/-- `HashMap::insert` (replace) on the transaction-side maps. -/
def insertKV (l : List (Nat × Version)) (k : Nat) (v : Version) : List (Nat × Version) :=
  (k, v) :: l.filter fun p => p.1 != k

/-- A transaction (`src/transaction/mod.rs`): its begin timestamp and the
read/write/local-write sets. The `clock`, `records` and
`contention_manager` handles of the source are passed explicitly to the
operations that use them; the store is an explicit argument. -/
structure Transaction : Type where
  timestamp : Nat
  read_set : List (Nat × Version)
  write_set : List (Nat × Version)
  local_writes : List (Nat × Version)
  thread_id : Nat

/-- `Transaction::read(record_id)`: local-writes cache first (returning
without touching the store), then the store record's visible version,
recorded into `read_set`. -/
def Transaction.read (tx : Transaction) (store : Store) (record_id : Nat) :
    Except MaemioError (Version × Transaction) :=
  match lookupKV tx.local_writes record_id with
  | some local_version => Except.ok (local_version, tx)
  | none =>
    match store record_id with
    | none => Except.error (MaemioError.RecordNotFound record_id)
    | some record =>
      match record.find_visible_version tx.timestamp with
      | none => Except.error MaemioError.NoVisibleVersion
      | some visible_version =>
        Except.ok (visible_version,
          { tx with read_set := insertKV tx.read_set record_id visible_version })

/-- `Transaction::write(record_id, data)`: the record must exist; a
PENDING version stamped with the transaction's timestamp goes into both
`write_set` and `local_writes`. -/
def Transaction.write (tx : Transaction) (store : Store) (record_id : Nat)
    (data : List Nat) : Except MaemioError Transaction :=
  match store record_id with
  | none => Except.error (MaemioError.RecordNotFound record_id)
  | some _ =>
    let new_version := Version.new tx.timestamp data
    Except.ok { tx with
      write_set := insertKV tx.write_set record_id new_version,
      local_writes := insertKV tx.local_writes record_id new_version }

/-- The write-set loop of `Transaction::validate`: for each id the record
must exist, and if a visible version exists with `wts` greater than the
transaction's timestamp the result is `Conflict`. -/
def validateWrites (store : Store) (ts : Nat) :
    List (Nat × Version) → Except MaemioError Unit
  | [] => Except.ok ()
  | (record_id, _) :: rest =>
    match store record_id with
    | none => Except.error (MaemioError.RecordNotFound record_id)
    | some record =>
      match record.find_visible_version ts with
      | some current_visible =>
        if ts < current_visible.wts then Except.error MaemioError.Conflict
        else validateWrites store ts rest
      | none => validateWrites store ts rest

/-- The read-set loop of `Transaction::validate`: each observed record
must still have a visible version (`ValidationFailed` otherwise) whose
`wts` matches the observed one (`Conflict` otherwise). -/
def validateReads (store : Store) (ts : Nat) :
    List (Nat × Version) → Except MaemioError Unit
  | [] => Except.ok ()
  | (record_id, read_version) :: rest =>
    match store record_id with
    | none => Except.error (MaemioError.RecordNotFound record_id)
    | some record =>
      match record.find_visible_version ts with
      | none => Except.error MaemioError.ValidationFailed
      | some current_visible =>
        if current_visible.wts ≠ read_version.wts then Except.error MaemioError.Conflict
        else validateReads store ts rest

/-- `Transaction::validate`: the write-set loop runs first on the cloned
validation snapshot, then the read-set loop. -/
def Transaction.validate (tx : Transaction) (store : Store) : Except MaemioError Unit :=
  match validateWrites store tx.timestamp tx.write_set with
  | Except.error e => Except.error e
  | Except.ok () => validateReads store tx.timestamp tx.read_set

/-- The installation loop of `Transaction::commit`: each pending write's
record is resolved (`RecordNotFound` aborts), the version's status flips
to COMMITTED, and the clone is handed to `install_version`. -/
def installWrites (store : Store) :
    List (Nat × Version) → Except MaemioError Store
  | [] => Except.ok store
  | (record_id, version) :: rest =>
    match store record_id with
    | none => Except.error (MaemioError.RecordNotFound record_id)
    | some record =>
      installWrites (store.update record_id (record.install_version version.commit)) rest

/-- `Transaction::commit`: validate, then install every pending write.
(The trailing `clock.reset_boost()` touches only the clock.) -/
def Transaction.commit (tx : Transaction) (store : Store) : Except MaemioError Store :=
  match tx.validate store with
  | Except.error e => Except.error e
  | Except.ok () => installWrites store tx.write_set

/-- C9 (confirmed): the write-set loop of `validate` never produces
`Conflict` — it either passes or fails with `RecordNotFound` — because
`find_visible_version ts` only returns versions with `wts ≤ ts`, making
the `wts > ts` branch unreachable; validation detects no write-write
conflicts. -/
theorem claim_C9 (store : Store) (ts : Nat) (wc : List (Nat × Version)) :
    validateWrites store ts wc = Except.ok () ∨
    ∃ id, validateWrites store ts wc = Except.error (MaemioError.RecordNotFound id) := by
  induction wc with
  | nil => exact Or.inl rfl
  | cons p rest ih =>
    obtain ⟨record_id, v⟩ := p
    cases hs : store record_id with
    | none =>
      refine Or.inr ⟨record_id, ?_⟩
      simp only [validateWrites, hs]
    | some record =>
      cases hf : record.find_visible_version ts with
      | none =>
        have hstep : validateWrites store ts ((record_id, v) :: rest) =
            validateWrites store ts rest := by
          simp only [validateWrites, hs, hf]
        rw [hstep]
        exact ih
      | some current_visible =>
        have hle : current_visible.wts ≤ ts := (RecordHead.find_visible_version_visible hf).1
        have hnlt : ¬ ts < current_visible.wts := by omega
        have hstep : validateWrites store ts ((record_id, v) :: rest) =
            validateWrites store ts rest := by
          simp only [validateWrites, hs, hf, hnlt, if_false]
        rw [hstep]
        exact ih

/-- When every write-set record exists in the store, the write-set loop
passes. -/
theorem validateWrites_ok (store : Store) (ts : Nat) (wc : List (Nat × Version))
    (h : ∀ p ∈ wc, ∃ r, store p.1 = some r) :
    validateWrites store ts wc = Except.ok () := by
  induction wc with
  | nil => rfl
  | cons p rest ih =>
    obtain ⟨record_id, v⟩ := p
    obtain ⟨r, hr⟩ := h (record_id, v) (List.mem_cons_self _ _)
    have htail := ih (fun q hq => h q (List.mem_cons_of_mem _ hq))
    cases hf : r.find_visible_version ts with
    | none =>
      have hstep : validateWrites store ts ((record_id, v) :: rest) =
          validateWrites store ts rest := by
        simp only [validateWrites, hr, hf]
      rw [hstep]
      exact htail
    | some cv =>
      have hle : cv.wts ≤ ts := (RecordHead.find_visible_version_visible hf).1
      have hnlt : ¬ ts < cv.wts := by omega
      have hstep : validateWrites store ts ((record_id, v) :: rest) =
          validateWrites store ts rest := by
        simp only [validateWrites, hr, hf, hnlt, if_false]
      rw [hstep]
      exact htail

/-- A read-set entry passes validation: its record still exists and the
currently visible version carries the observed `wts`. -/
def readEntryPasses (store : Store) (ts : Nat) (p : Nat × Version) : Prop :=
  ∃ r cv, store p.1 = some r ∧ r.find_visible_version ts = some cv ∧ cv.wts = p.2.wts

/-- The read-set loop skips over a prefix of passing entries. -/
theorem validateReads_skip (store : Store) (ts : Nat) :
    ∀ (pre rest : List (Nat × Version)), (∀ p ∈ pre, readEntryPasses store ts p) →
      validateReads store ts (pre ++ rest) = validateReads store ts rest := by
  intro pre
  induction pre with
  | nil => intro rest _; rfl
  | cons p pre' ih =>
    intro rest hall
    obtain ⟨record_id, obs⟩ := p
    obtain ⟨r, cv, hr, hf, hwts⟩ := hall (record_id, obs) (List.mem_cons_self _ _)
    have hstep : validateReads store ts (((record_id, obs) :: pre') ++ rest) =
        validateReads store ts (pre' ++ rest) := by
      simp only [List.cons_append, validateReads, hr, hf]
      simp [hwts]
    rw [hstep]
    exact ih rest (fun q hq => hall q (List.mem_cons_of_mem _ hq))

/-- C6 (confirmed): during commit validation — with every write-set
record present, as `write` guarantees — a read-set entry whose record
has no visible version at the transaction's timestamp makes `validate`
fail with `ValidationFailed`; one whose currently visible version has a
`wts` different from the observed one makes it fail with `Conflict`; and
if every entry's visible version matches, validation succeeds. -/
theorem claim_C6 (store : Store) (tx : Transaction)
    (hw : ∀ p ∈ tx.write_set, ∃ r, store p.1 = some r) :
    (∀ pre id obs post record, tx.read_set = pre ++ (id, obs) :: post →
      (∀ p ∈ pre, readEntryPasses store tx.timestamp p) →
      store id = some record →
      (record.find_visible_version tx.timestamp = none →
        tx.validate store = Except.error MaemioError.ValidationFailed) ∧
      (∀ cv, record.find_visible_version tx.timestamp = some cv → cv.wts ≠ obs.wts →
        tx.validate store = Except.error MaemioError.Conflict)) ∧
    ((∀ p ∈ tx.read_set, readEntryPasses store tx.timestamp p) →
      tx.validate store = Except.ok ()) := by
  have hval : tx.validate store = validateReads store tx.timestamp tx.read_set := by
    unfold Transaction.validate
    rw [validateWrites_ok store tx.timestamp tx.write_set hw]
  constructor
  · intro pre id obs post record hsplit hpre hrec
    constructor
    · intro hnone
      rw [hval, hsplit, validateReads_skip store tx.timestamp pre _ hpre]
      simp only [validateReads, hrec, hnone]
    · intro cv hcv hne
      rw [hval, hsplit, validateReads_skip store tx.timestamp pre _ hpre]
      simp only [validateReads, hrec, hcv]
      simp [hne]
  · intro hall
    rw [hval]
    have hskip := validateReads_skip store tx.timestamp tx.read_set [] hall
    rw [List.append_nil] at hskip
    rw [hskip]
    rfl

/-- Inserting into a transaction-side map makes the key's lookup return
the inserted version. -/
theorem lookupKV_insert (l : List (Nat × Version)) (k : Nat) (v : Version) :
    lookupKV (insertKV l k v) k = some v := by
  simp [lookupKV, insertKV, List.find?]

/-- C8 (confirmed): within one transaction, after `write(record_id, d)`
succeeds, `read(record_id)` returns exactly the pending version written
(so its data is `d` and its `wts` the transaction's timestamp), against
*any* store whatsoever — the global record store's versions are never
consulted on the read-own-writes path. -/
theorem claim_C8 (store : Store) (tx tx2 : Transaction) (record_id : Nat) (data : List Nat)
    (hw : tx.write store record_id data = Except.ok tx2) :
    ∀ store2 : Store,
      tx2.read store2 record_id = Except.ok (Version.new tx.timestamp data, tx2) ∧
      (Version.new tx.timestamp data).data = data ∧
      (Version.new tx.timestamp data).wts = tx.timestamp := by
  intro store2
  refine ⟨?_, rfl, rfl⟩
  cases hs : store record_id with
  | none =>
    rw [Transaction.write, hs] at hw
    simp at hw
  | some r =>
    rw [Transaction.write, hs] at hw
    simp only [Except.ok.injEq] at hw
    subst hw
    simp only [Transaction.read, lookupKV_insert]

/-- Installing a small committed version makes it (or the copy of it at
the head of the chain) visible at its own timestamp. -/
theorem find_after_install_small (r : RecordHead) (v : Version)
    (hsmall : v.data.length ≤ MAX_INLINE_SIZE)
    (hcomm : v.status = VERSION_STATUS_COMMITTED)
    (hts : r.creation_timestamp ≤ v.wts) :
    ∃ u, (r.install_version v).find_visible_version v.wts = some u ∧ u.wts = v.wts := by
  have hnlt : ¬ v.wts < r.creation_timestamp := by omega
  have hvis : v.is_visible_to v.wts = true := by
    simp [Version.is_visible_to, hcomm]
  cases hinl : r.inline_version with
  | none =>
    refine ⟨v, ?_, rfl⟩
    simp only [RecordHead.install_version, hsmall, if_true, hinl,
      RecordHead.find_visible_version, hnlt, if_false, hvis]
  | some inl =>
    by_cases hle : inl.wts ≤ v.wts
    · refine ⟨v, ?_, rfl⟩
      simp only [RecordHead.install_version, hsmall, if_true, hinl, hle,
        RecordHead.find_visible_version, hnlt, if_false, hvis]
    · refine ⟨{ wts := v.wts, rts := v.rts, status := v.status, data := v.data,
                next := r.version_list }, ?_, rfl⟩
      have hinlv : inl.is_visible_to v.wts = false := by
        simp [Version.is_visible_to]
        intro hc
        omega
      have hvis2 : Version.is_visible_to
          { wts := v.wts, rts := v.rts, status := v.status, data := v.data,
            next := r.version_list } v.wts = true := by
        simp [Version.is_visible_to, hcomm]
      simp only [RecordHead.install_version, hsmall, if_true, hinl, hle, if_false,
        RecordHead.find_visible_version, hnlt, hinlv, Chain.push, Chain.findVisible, hvis2]
      simp

/-- Ids not written by the installation loop keep their store entry. -/
theorem installWrites_frame :
    ∀ (ws : List (Nat × Version)) (store store2 : Store) (id : Nat),
      installWrites store ws = Except.ok store2 → id ∉ ws.map Prod.fst →
      store2 id = store id := by
  intro ws
  induction ws with
  | nil =>
    intro store store2 id h _
    simp only [installWrites, Except.ok.injEq] at h
    rw [← h]
  | cons q rest ih =>
    intro store store2 id h hnmem
    obtain ⟨k, v⟩ := q
    simp only [List.map_cons, List.mem_cons, not_or] at hnmem
    cases hs : store k with
    | none =>
      simp only [installWrites, hs] at h
      exact absurd h (by simp)
    | some record =>
      simp only [installWrites, hs] at h
      have hrec := ih _ _ id h hnmem.2
      rw [hrec]
      simp [Store.update, hnmem.1]

/-- After a successful installation pass over distinct keys, every
written record holds a version visible at the writer's timestamp `T`,
provided the payloads fit inline and the written records were created at
or before `T`. -/
theorem installWrites_finds (T : Nat) :
    ∀ (ws : List (Nat × Version)) (store store2 : Store),
      installWrites store ws = Except.ok store2 →
      (ws.map Prod.fst).Nodup →
      (∀ p ∈ ws, p.2.wts = T ∧ p.2.data.length ≤ MAX_INLINE_SIZE ∧
        ∀ r, store p.1 = some r → r.creation_timestamp ≤ T) →
      ∀ p ∈ ws, ∃ r u, store2 p.1 = some r ∧
        r.find_visible_version T = some u ∧ u.wts = T := by
  intro ws
  induction ws with
  | nil =>
    intro store store2 _ _ _ p hp
    simp at hp
  | cons q rest ih =>
    intro store store2 h hnodup hcond p hp
    obtain ⟨k, v⟩ := q
    cases hs : store k with
    | none =>
      simp only [installWrites, hs] at h
      exact absurd h (by simp)
    | some record =>
      simp only [installWrites, hs] at h
      simp only [List.map_cons, List.nodup_cons] at hnodup
      rcases List.mem_cons.mp hp with hp | hp
      · subst hp
        obtain ⟨hw, hsm, hcr⟩ := hcond (k, v) (List.mem_cons_self _ _)
        have hfr : store2 k = (store.update k (record.install_version v.commit)) k :=
          installWrites_frame rest _ store2 k h hnodup.1
        have hupd : (store.update k (record.install_version v.commit)) k =
            some (record.install_version v.commit) := by
          simp [Store.update]
        have hcomm : (v.commit).status = VERSION_STATUS_COMMITTED := rfl
        have hwts : (v.commit).wts = T := hw
        have hsm' : (v.commit).data.length ≤ MAX_INLINE_SIZE := hsm
        have hcr' : record.creation_timestamp ≤ (v.commit).wts := by
          rw [hwts]
          exact hcr record hs
        obtain ⟨u, hu, huw⟩ := find_after_install_small record v.commit hsm' hcomm hcr'
        refine ⟨record.install_version v.commit, u, ?_, ?_, ?_⟩
        · rw [hfr, hupd]
        · rw [← hwts]
          exact hu
        · rw [huw, hwts]
      · apply ih _ store2 h hnodup.2 ?_ p hp
        intro q' hq'
        obtain ⟨hw', hsm', hcr'⟩ := hcond q' (List.mem_cons_of_mem _ hq')
        refine ⟨hw', hsm', ?_⟩
        intro r hr
        apply hcr' r
        have hk : q'.1 ≠ k := by
          intro hcontra
          apply hnodup.1
          rw [← hcontra]
          exact List.mem_map_of_mem Prod.fst hq'
        rw [Store.update] at hr
        simp only [hk, if_false] at hr
        exact hr

/-- C7 (amended): for a transaction whose `commit()` succeeds, every
write-set record afterwards holds a version visible at the transaction's
timestamp `T` with `wts = T`, provided the written payloads fit the
inline slot (≤ 216 bytes) and each written record's creation timestamp is
at most `T`. Without those provisos the claim fails (see the
counterexample): a big payload lands on the chain behind a committed
inline version with smaller `wts`, and a record created after `T` hides
everything. -/
theorem claim_C7_amended (store store2 : Store) (tx : Transaction)
    (hnodup : (tx.write_set.map Prod.fst).Nodup)
    (hwts : ∀ p ∈ tx.write_set, p.2.wts = tx.timestamp)
    (hsmall : ∀ p ∈ tx.write_set, p.2.data.length ≤ MAX_INLINE_SIZE)
    (hcreate : ∀ p ∈ tx.write_set, ∀ r, store p.1 = some r →
      r.creation_timestamp ≤ tx.timestamp)
    (hcommit : tx.commit store = Except.ok store2) :
    ∀ p ∈ tx.write_set, ∃ r u, store2 p.1 = some r ∧
      r.find_visible_version tx.timestamp = some u ∧ u.wts = tx.timestamp := by
  unfold Transaction.commit at hcommit
  cases hv : tx.validate store with
  | error e => rw [hv] at hcommit; simp at hcommit
  | ok u =>
    cases u
    rw [hv] at hcommit
    exact installWrites_finds tx.timestamp tx.write_set store store2 hcommit hnodup
      (fun p hp => ⟨hwts p hp, hsmall p hp, hcreate p hp⟩)

/-- A record whose inline slot holds a committed version with `wts = 3`. -/
def c6Record : RecordHead :=
  (RecordHead.new 0).install_version
    { wts := 3, rts := 0, status := VERSION_STATUS_COMMITTED, data := [7], next := Chain.nil }

/-- The version a reader of `c6Record` observes at timestamp 5. -/
def c6Observed : Version :=
  { wts := 3, rts := 0, status := VERSION_STATUS_COMMITTED, data := [7], next := Chain.nil }

/-- Store with record 1 = `c6Record` and record 2 empty. -/
def c6Store : Store :=
  fun id => if id = 1 then some c6Record else if id = 2 then some (RecordHead.new 0) else none

/-- Transaction that observed record 1's current version. -/
def c6Tx : Transaction :=
  { timestamp := 5, read_set := [(1, c6Observed)], write_set := [], local_writes := [],
    thread_id := 0 }

/-- Transaction whose observed record has no visible version. -/
def c6TxMissing : Transaction :=
  { timestamp := 5, read_set := [(2, c6Observed)], write_set := [], local_writes := [],
    thread_id := 0 }

/-- Transaction whose observation is stale (`wts = 2` vs current 3). -/
def c6TxStale : Transaction :=
  { timestamp := 5, read_set := [(1, { c6Observed with wts := 2 })], write_set := [],
    local_writes := [], thread_id := 0 }

/-- Witness instantiating `claim_C6` on all three outcomes. -/
theorem claim_C6_witness :
    c6Tx.validate c6Store = Except.ok () ∧
    c6TxMissing.validate c6Store = Except.error MaemioError.ValidationFailed ∧
    c6TxStale.validate c6Store = Except.error MaemioError.Conflict := by
  refine ⟨?_, ?_, ?_⟩
  · apply (claim_C6 c6Store c6Tx (by intro p hp; simp [c6Tx] at hp)).2
    intro p hp
    simp only [c6Tx, List.mem_singleton] at hp
    subst hp
    exact ⟨c6Record, c6Observed, rfl, rfl, rfl⟩
  · exact ((claim_C6 c6Store c6TxMissing (by intro p hp; simp [c6TxMissing] at hp)).1
      [] 2 c6Observed [] (RecordHead.new 0) rfl (by intro p hp; simp at hp) rfl).1 rfl
  · exact ((claim_C6 c6Store c6TxStale (by intro p hp; simp [c6TxStale] at hp)).1
      [] 1 { c6Observed with wts := 2 } [] c6Record rfl (by intro p hp; simp at hp) rfl).2
      c6Observed rfl (by decide)

/-- Record 1 of the first C7 counterexample scenario: a committed inline
version with `wts = 3`. -/
def c7RecordA : RecordHead :=
  (RecordHead.new 0).install_version
    { wts := 3, rts := 0, status := VERSION_STATUS_COMMITTED, data := [9], next := Chain.nil }

/-- Store for the big-payload scenario. -/
def c7StoreA : Store := fun id => if id = 1 then some c7RecordA else none

/-- Transaction at timestamp 5 writing a 217-byte payload to record 1. -/
def c7TxA : Transaction :=
  { timestamp := 5, read_set := [], write_set := [(1, Version.new 5 (List.replicate 217 0))],
    local_writes := [], thread_id := 0 }

/-- Store for the late-creation scenario: record 1 created at 100. -/
def c7StoreB : Store := fun id => if id = 1 then some (RecordHead.new 100) else none

/-- Transaction at timestamp 5 writing a small payload to record 1,
which was created at timestamp 100 > 5. -/
def c7TxB : Transaction :=
  { timestamp := 5, read_set := [], write_set := [(1, Version.new 5 [1])],
    local_writes := [], thread_id := 0 }

/-- Commit a transaction and report what `find_visible_version` at the
transaction's timestamp then sees on the given record: `none` if commit
failed, otherwise the found version's `wts` (or `none` if nothing is
visible). -/
def commitThenFind (tx : Transaction) (store : Store) (record_id : Nat) :
    Option (Option Nat) :=
  match tx.commit store with
  | Except.error _ => none
  | Except.ok store2 =>
    match store2 record_id with
    | none => some none
    | some r => some ((r.find_visible_version tx.timestamp).map Version.wts)

set_option maxRecDepth 4096 in
/-- C7 (counterexample): two successful commits at timestamp 5 after
which `find_visible_version 5` does *not* return a version with
`wts = 5`: a 217-byte payload lands on the chain and is shadowed by the
committed inline version with `wts = 3`; and a record created at
timestamp 100 hides everything from a reader at 5. -/
theorem claim_C7_counterexample :
    commitThenFind c7TxA c7StoreA 1 = some (some 3) ∧
    commitThenFind c7TxB c7StoreB 1 = some none ∧
    (3 : Nat) ≠ 5 := by
  decide

/-- Store for the C7 witness: record 1 created at 0. -/
def c7WStore : Store := fun id => if id = 1 then some (RecordHead.new 0) else none

/-- Transaction at timestamp 5 writing a small payload to record 1. -/
def c7WTx : Transaction :=
  { timestamp := 5, read_set := [], write_set := [(1, Version.new 5 [9])],
    local_writes := [(1, Version.new 5 [9])], thread_id := 0 }

/-- The store produced by the witness transaction's commit. -/
def c7WStore2 : Store :=
  match c7WTx.commit c7WStore with
  | Except.ok s => s
  | Except.error _ => fun _ => none

/-- Witness instantiating `claim_C7_amended` on a concrete commit. -/
theorem claim_C7_witness :
    ∃ r u, c7WStore2 1 = some r ∧ r.find_visible_version 5 = some u ∧ u.wts = 5 := by
  have h := claim_C7_amended c7WStore c7WStore2 c7WTx
    (by simp [c7WTx])
    (by intro p hp; simp only [c7WTx, List.mem_singleton] at hp; subst hp; rfl)
    (by intro p hp; simp only [c7WTx, List.mem_singleton] at hp; subst hp; decide)
    (by
      intro p hp r hr
      simp only [c7WTx, List.mem_singleton] at hp
      subst hp
      simp only [c7WStore] at hr
      simp only [if_true] at hr
      have : RecordHead.new 0 = r := by simpa using hr
      rw [← this]
      decide)
    rfl
  have h2 := h (1, Version.new 5 [9]) (by simp [c7WTx])
  simpa [c7WTx] using h2

/-- Store for the C8 witness: record 1 exists. -/
def c8Store : Store := fun id => if id = 1 then some (RecordHead.new 0) else none

/-- Fresh transaction at timestamp 7. -/
def c8Tx : Transaction :=
  { timestamp := 7, read_set := [], write_set := [], local_writes := [], thread_id := 0 }

/-- The witness transaction after writing `[4, 2]` to record 1. -/
def c8Tx2 : Transaction :=
  match c8Tx.write c8Store 1 [4, 2] with
  | Except.ok t => t
  | Except.error _ => c8Tx

/-- Witness instantiating `claim_C8`: the read is evaluated against the
empty store, demonstrating the store is not consulted. -/
theorem claim_C8_witness :
    c8Tx2.read (fun _ => none) 1 = Except.ok (Version.new 7 [4, 2], c8Tx2) ∧
    (Version.new 7 [4, 2]).data = [4, 2] ∧
    (Version.new 7 [4, 2]).wts = 7 :=
  claim_C8 c8Store c8Tx c8Tx2 1 [4, 2] rfl (fun _ => none)

/-- Heap of atomic cells. -/
def CMHeap : Type := Nat → Nat

/-- Store a value into an atomic cell. -/
def heapWrite (h : CMHeap) (cell value : Nat) : CMHeap :=
  fun j => if j = cell then value else h j

/-- Writing one cell leaves the others unchanged. -/
theorem heapWrite_ne (h : CMHeap) (cell value x : Nat) (hx : x ≠ cell) :
    heapWrite h cell value x = h x := by
  simp [heapWrite, hx]

/-- `ContentionManager` (`src/contention/manager.rs`), modelled with
explicit heap cells for its atomics: `thread_stats` holds, per thread,
the cell indices of `commit_count` and `last_commit_count` (shared across
clones via `Arc`); the four hill-climbing atomics are each manager's own
cells; `backoff_step` and the interval are plain configuration. -/
structure ContentionManager : Type where
  thread_stats : List (Nat × Nat)
  max_backoff_time : Nat
  last_throughput : Nat
  last_backoff : Nat
  positive_gradient : Nat
  backoff_step : Nat

/-- `ContentionManager::new(thread_count, _, backoff_step)` with its
cells allocated from `base`: two stats cells per thread, then
`max_backoff_time`, `last_throughput`, `last_backoff`,
`positive_gradient`. -/
def ContentionManager.new (thread_count backoff_step base : Nat) : ContentionManager :=
  { thread_stats := (List.range thread_count).map fun i => (base + 2 * i, base + 2 * i + 1),
    max_backoff_time := base + 2 * thread_count,
    last_throughput := base + 2 * thread_count + 1,
    last_backoff := base + 2 * thread_count + 2,
    positive_gradient := base + 2 * thread_count + 3,
    backoff_step := backoff_step }

/-- The heap after `new` initialises its cells: every counter cell 0 and
`positive_gradient` true (1). -/
def newHeap (h : CMHeap) (thread_count base : Nat) : CMHeap :=
  fun j =>
    if base ≤ j ∧ j < base + 2 * thread_count + 3 then 0
    else if j = base + 2 * thread_count + 3 then 1
    else h j

/-- `impl Clone for ContentionManager`: the clone shares `thread_stats`
(`Arc::clone`) but gets four *fresh* atomic cells at `base2`, loaded with
the current values (see `cloneHeap`). -/
def ContentionManager.clone (m : ContentionManager) (base2 : Nat) : ContentionManager :=
  { thread_stats := m.thread_stats,
    max_backoff_time := base2,
    last_throughput := base2 + 1,
    last_backoff := base2 + 2,
    positive_gradient := base2 + 3,
    backoff_step := m.backoff_step }

/-- The heap after `clone` copies the four atomic values into the
clone's fresh cells. -/
def cloneHeap (h : CMHeap) (m : ContentionManager) (base2 : Nat) : CMHeap :=
  fun j =>
    if j = base2 then h m.max_backoff_time
    else if j = base2 + 1 then h m.last_throughput
    else if j = base2 + 2 then h m.last_backoff
    else if j = base2 + 3 then h m.positive_gradient
    else h j

/-- `ContentionManager::record_commit(thread_id)`. -/
def ContentionManager.record_commit (m : ContentionManager) (h : CMHeap)
    (thread_id : Nat) : CMHeap :=
  match m.thread_stats.get? thread_id with
  | none => h
  | some p => heapWrite h p.1 ((h p.1 + 1) % U64_MOD)

/-- `ContentionManager::calculate_throughput`: sums
`commit_count - last_commit_count` over all threads, storing each
current count into `last_commit_count`. -/
def calcThroughput : List (Nat × Nat) → CMHeap → Nat → CMHeap × Nat
  | [], h, total => (h, total)
  | (cc, lc) :: rest, h, total =>
    let current := h cc
    let previous := h lc
    calcThroughput rest (heapWrite h lc current) (total + (current - previous))

/-- `u64::MAX`, the saturation bound of `saturating_add`. -/
def U64_MAX : Nat := 2 ^ 64 - 1

/-- `u64::saturating_add`. -/
def satAdd (a b : Nat) : Nat := min (a + b) U64_MAX

/-- `ContentionManager::update_max_backoff`: one hill-climb step. When a
previous throughput sample exists, the gradient sign of
`throughput_change / backoff_change` (an `f64` division whose sign is
exact for these magnitudes, here computed over `Int`) decides whether
`max_backoff_time` steps up (saturating) or down; the new snapshot is
always stored. -/
def ContentionManager.update_max_backoff (m : ContentionManager) (h : CMHeap) : CMHeap :=
  let res := calcThroughput m.thread_stats h 0
  let h1 := res.1
  let current_throughput := res.2
  let current_backoff := h1 m.max_backoff_time
  let last_throughput := h1 m.last_throughput
  let last_backoff := h1 m.last_backoff
  let h2 :=
    if 0 < last_throughput then
      let throughput_change : Int := (current_throughput : Int) - (last_throughput : Int)
      let backoff_change : Int := (current_backoff : Int) - (last_backoff : Int)
      let pos : Bool :=
        if backoff_change = 0 then true
        else decide ((0 ≤ throughput_change ∧ 0 < backoff_change) ∨
                     (throughput_change ≤ 0 ∧ backoff_change < 0))
      let h2a := heapWrite h1 m.positive_gradient (if pos then 1 else 0)
      let new_backoff :=
        if pos then satAdd current_backoff m.backoff_step
        else current_backoff - m.backoff_step
      heapWrite h2a m.max_backoff_time new_backoff
    else h1
  heapWrite (heapWrite h2 m.last_throughput current_throughput) m.last_backoff current_backoff

/-- `ContentionManager::backoff()`: returns the bound of the randomized
sleep, or `none` when `max_backoff_time` is zero and the call returns
immediately. -/
def ContentionManager.backoff (m : ContentionManager) (h : CMHeap) : Option Nat :=
  if 0 < h m.max_backoff_time then some (h m.max_backoff_time) else none

/-- Repeated `update_max_backoff` calls on one manager — what the thread
spawned by `start_hill_climbing` performs on `self.clone()`. -/
def iterUpdates (m : ContentionManager) : Nat → CMHeap → CMHeap
  | 0, h => h
  | n + 1, h => iterUpdates m n (m.update_max_backoff h)

/-- `calculate_throughput` writes only `last_commit_count` cells. -/
theorem calcThroughput_frame :
    ∀ (stats : List (Nat × Nat)) (h : CMHeap) (total x : Nat),
      (∀ p ∈ stats, p.2 ≠ x) → (calcThroughput stats h total).1 x = h x := by
  intro stats
  induction stats with
  | nil => intro h total x _; rfl
  | cons p rest ih =>
    intro h total x hx
    obtain ⟨cc, lc⟩ := p
    have hlc : lc ≠ x := hx (cc, lc) (List.mem_cons_self _ _)
    have := ih (heapWrite h lc (h cc)) (total + (h cc - h lc)) x
      (fun q hq => hx q (List.mem_cons_of_mem _ hq))
    simp only [calcThroughput]
    rw [this]
    exact heapWrite_ne h lc (h cc) x (fun hc => hlc hc.symm)

/-- `update_max_backoff` writes only the manager's own four cells and
the shared `last_commit_count` cells. -/
theorem update_max_backoff_frame (m : ContentionManager) (h : CMHeap) (x : Nat)
    (hx1 : x ≠ m.max_backoff_time) (hx2 : x ≠ m.last_throughput)
    (hx3 : x ≠ m.last_backoff) (hx4 : x ≠ m.positive_gradient)
    (hx5 : ∀ p ∈ m.thread_stats, p.2 ≠ x) :
    m.update_max_backoff h x = h x := by
  unfold ContentionManager.update_max_backoff
  simp only []
  rw [heapWrite_ne _ _ _ _ hx3, heapWrite_ne _ _ _ _ hx2]
  split
  · rw [heapWrite_ne _ _ _ _ hx1, heapWrite_ne _ _ _ _ hx4]
    exact calcThroughput_frame m.thread_stats h 0 x hx5
  · exact calcThroughput_frame m.thread_stats h 0 x hx5

/-- Any number of `update_max_backoff` calls leaves unrelated cells
untouched. -/
theorem iterUpdates_frame (m : ContentionManager) (x : Nat)
    (hx1 : x ≠ m.max_backoff_time) (hx2 : x ≠ m.last_throughput)
    (hx3 : x ≠ m.last_backoff) (hx4 : x ≠ m.positive_gradient)
    (hx5 : ∀ p ∈ m.thread_stats, p.2 ≠ x) :
    ∀ (n : Nat) (h : CMHeap), iterUpdates m n h x = h x := by
  intro n
  induction n with
  | zero => intro h; rfl
  | succ n ih =>
    intro h
    simp only [iterUpdates]
    rw [ih (m.update_max_backoff h)]
    exact update_max_backoff_frame m h x hx1 hx2 hx3 hx4 hx5

/-- C10 (confirmed): `Clone` gives the clone its own independent
`max_backoff_time` cell, so any number of `update_max_backoff` calls on
the clone (as the hill-climbing thread performs) never changes the
original manager's `max_backoff_time`, which `new` initialised to 0 —
hence `backoff()` on the original, whose own `update_max_backoff` was
never called, still sees 0 and returns immediately. -/
theorem claim_C10 (h0 : CMHeap) (base thread_count backoff_step n : Nat) :
    (ContentionManager.new thread_count backoff_step base).max_backoff_time ≠
      ((ContentionManager.new thread_count backoff_step base).clone
        (base + 2 * thread_count + 4)).max_backoff_time ∧
    iterUpdates
        ((ContentionManager.new thread_count backoff_step base).clone
          (base + 2 * thread_count + 4)) n
        (cloneHeap (newHeap h0 thread_count base)
          (ContentionManager.new thread_count backoff_step base)
          (base + 2 * thread_count + 4))
        (ContentionManager.new thread_count backoff_step base).max_backoff_time = 0 ∧
    (ContentionManager.new thread_count backoff_step base).backoff
        (iterUpdates
          ((ContentionManager.new thread_count backoff_step base).clone
            (base + 2 * thread_count + 4)) n
          (cloneHeap (newHeap h0 thread_count base)
            (ContentionManager.new thread_count backoff_step base)
            (base + 2 * thread_count + 4))) = none := by
  set m := ContentionManager.new thread_count backoff_step base with hm
  set c := m.clone (base + 2 * thread_count + 4) with hc
  have hmb : m.max_backoff_time = base + 2 * thread_count := rfl
  have hstats : ∀ p ∈ c.thread_stats, p.2 ≠ m.max_backoff_time := by
    intro p hp
    have : p ∈ (List.range thread_count).map fun i => (base + 2 * i, base + 2 * i + 1) := hp
    obtain ⟨i, hi, hpi⟩ := List.mem_map.mp this
    have hi' : i < thread_count := List.mem_range.mp hi
    rw [← hpi, hmb]
    simp only []
    omega
  have hiter : iterUpdates c n (cloneHeap (newHeap h0 thread_count base) m
      (base + 2 * thread_count + 4)) m.max_backoff_time =
      cloneHeap (newHeap h0 thread_count base) m
        (base + 2 * thread_count + 4) m.max_backoff_time := by
    apply iterUpdates_frame c m.max_backoff_time
    · rw [hmb]; show base + 2 * thread_count ≠ base + 2 * thread_count + 4; omega
    · rw [hmb]; show base + 2 * thread_count ≠ base + 2 * thread_count + 4 + 1; omega
    · rw [hmb]; show base + 2 * thread_count ≠ base + 2 * thread_count + 4 + 2; omega
    · rw [hmb]; show base + 2 * thread_count ≠ base + 2 * thread_count + 4 + 3; omega
    · exact hstats
  have hclone : cloneHeap (newHeap h0 thread_count base) m
      (base + 2 * thread_count + 4) m.max_backoff_time =
      newHeap h0 thread_count base m.max_backoff_time := by
    unfold cloneHeap
    rw [hmb]
    have h1 : ¬ (base + 2 * thread_count = base + 2 * thread_count + 4) := by omega
    have h2 : ¬ (base + 2 * thread_count = base + 2 * thread_count + 4 + 1) := by omega
    have h3 : ¬ (base + 2 * thread_count = base + 2 * thread_count + 4 + 2) := by omega
    have h4 : ¬ (base + 2 * thread_count = base + 2 * thread_count + 4 + 3) := by omega
    simp [h1, h2, h3, h4]
  have hnew : newHeap h0 thread_count base m.max_backoff_time = 0 := by
    unfold newHeap
    rw [hmb]
    have : base ≤ base + 2 * thread_count ∧
        base + 2 * thread_count < base + 2 * thread_count + 3 := by omega
    simp [this]
  refine ⟨?_, ?_, ?_⟩
  · rw [hmb]
    show base + 2 * thread_count ≠ base + 2 * thread_count + 4
    omega
  · rw [hiter, hclone, hnew]
  · unfold ContentionManager.backoff
    rw [hiter, hclone, hnew]
    simp
